import Mathlib

/-!
Shallow embedding of the review-feedback pipeline of `src/services/api.ts`
(the noise filter, policy filter, part extractor, deduplicator, issue
assembler and code-fence stripper), together with theorems settling the
specification claims about it.  JavaScript strings are modelled as
`List Char`; the regular expressions of the source are translated into
explicit recursive matchers on character lists.
-/

/-- Character-list view of a Lean string literal; JavaScript strings are
modelled as `List Char` throughout. -/
def S (s : String) : List Char := s.data

/-- The ASCII apostrophe character (written via its code point so that
pattern strings can be assembled without quoting issues). -/
def apos : Char := Char.ofNat 39

/-- The ASCII double-quote character. -/
def quoteD : Char := Char.ofNat 34

/-- Whitespace recognised by JavaScript trim and the regex class \s
(ASCII fragment: space, tab, newline, carriage return). -/
def isWsChar (c : Char) : Bool := c = ' ' || c = '\t' || c = '\n' || c = '\r'

/-- JavaScript String.prototype.trim on the ASCII fragment. -/
def trimL (cs : List Char) : List Char :=
  ((cs.dropWhile isWsChar).reverse.dropWhile isWsChar).reverse

/-- ASCII lower-casing of one character, as JavaScript toLowerCase acts on
the ASCII range. -/
def lowerChar (c : Char) : Char := Char.toLower c

/-- Lower-case a whole modelled string. -/
def lowerL (cs : List Char) : List Char := cs.map lowerChar

/-- First argument is a literal prefix of the second (anchored literal
regex match or JavaScript startsWith). -/
def isPrefixL : List Char → List Char → Bool
  | [], _ => true
  | _ :: _, [] => false
  | p :: ps, c :: cs => p = c && isPrefixL ps cs

/-- The second argument occurs contiguously inside the first (JavaScript
String.prototype.includes). -/
def hasSubstr : List Char → List Char → Bool
  | [], needle => isPrefixL needle []
  | c :: t, needle => isPrefixL needle (c :: t) || hasSubstr t needle

/-- Case-insensitive anchored match of a literal pattern. -/
def startsWithCI (pat cs : List Char) : Bool := isPrefixL (lowerL pat) (lowerL cs)

/-- The regex fragment `.*pat` anchored at the current position: a run of
non-newline characters followed by the literal `pat`. -/
def dotStarThen (pat : List Char) : List Char → Bool
  | [] => isPrefixL pat []
  | c :: t => isPrefixL pat (c :: t) || (!(c = '\n' || c = '\r') && dotStarThen pat t)

/-- Noise rule: starts with a markdown heading marker. -/
def noiseHeading (t : List Char) : Bool := isPrefixL (S "###") t

/-- Noise rule: starts with a fenced-code delimiter. -/
def noiseFence (t : List Char) : Bool := isPrefixL (S "```") t

/-- Noise rule for the regex
^(None identified|No .* identified|N\/A|Here'?s an? updated) with the
case-insensitive flag. -/
def noiseBoilerplate (t : List Char) : Bool :=
  startsWithCI (S "None identified") t ||
  (isPrefixL (S "no ") (lowerL t) && dotStarThen (S " identified") ((lowerL t).drop 3)) ||
  startsWithCI (S "N/A") t ||
  startsWithCI (S "Here" ++ [apos] ++ S "s an updated") t ||
  startsWithCI (S "Here" ++ [apos] ++ S "s a updated") t ||
  startsWithCI (S "Heres an updated") t ||
  startsWithCI (S "Heres a updated") t

/-- Noise rule for ^(In this updated|I added|I used|I raised|- I ), case-insensitive. -/
def noiseNarrative (t : List Char) : Bool :=
  startsWithCI (S "In this updated") t || startsWithCI (S "I added") t ||
  startsWithCI (S "I used") t || startsWithCI (S "I raised") t ||
  startsWithCI (S "- I ") t

/-- Noise rule for the case-sensitive source-code keyword prefixes. -/
def noiseCodeKeyword (t : List Char) : Bool :=
  isPrefixL (S "def ") t || isPrefixL (S "class ") t ||
  isPrefixL (S "import ") t || isPrefixL (S "from ") t ||
  isPrefixL (S "return ") t || isPrefixL (S "if ") t ||
  isPrefixL (S "for ") t || isPrefixL (S "while ") t ||
  isPrefixL (S "try ") t || isPrefixL (S "except ") t

/-- The first character is a double or single quote (regex ^["'] ). -/
def firstIsQuote (t : List Char) : Bool :=
  match t with
  | c :: _ => c = quoteD || c = apos
  | [] => false

/-- The last character is a double or single quote (regex ["']$ ). -/
def lastIsQuote (t : List Char) : Bool :=
  match t.getLast? with
  | some c => c = quoteD || c = apos
  | none => false

/-- Noise rule: begins with a quote character and ends with a quote
character (the source tests ^["'] and ["']$ independently). -/
def noiseQuoted (t : List Char) : Bool := firstIsQuote t && lastIsQuote t

/-- Noise rule: trimmed length below 15. -/
def noiseShort (t : List Char) : Bool := decide (t.length < 15)

/-- Noise rule for ^(Consider (adding|using)|You (could|should|might|may) (also )?consider),
case-insensitive. -/
def noiseAdvisory (t : List Char) : Bool :=
  startsWithCI (S "Consider adding") t || startsWithCI (S "Consider using") t ||
  startsWithCI (S "You could also consider") t || startsWithCI (S "You could consider") t ||
  startsWithCI (S "You should also consider") t || startsWithCI (S "You should consider") t ||
  startsWithCI (S "You might also consider") t || startsWithCI (S "You might consider") t ||
  startsWithCI (S "You may also consider") t || startsWithCI (S "You may consider") t

/-- Noise rule for ^(It('s| is) (a )?good practice|As a (best|general) practice|For better),
case-insensitive. -/
def noisePlatitude (t : List Char) : Bool :=
  startsWithCI (S "It" ++ [apos] ++ S "s a good practice") t ||
  startsWithCI (S "It" ++ [apos] ++ S "s good practice") t ||
  startsWithCI (S "It is a good practice") t ||
  startsWithCI (S "It is good practice") t ||
  startsWithCI (S "As a best practice") t ||
  startsWithCI (S "As a general practice") t ||
  startsWithCI (S "For better") t

/-- Noise rule for ^(Add(ing)? comments|Missing comments|No comments|Comment your),
case-insensitive. -/
def noiseCommentAdvice (t : List Char) : Bool :=
  startsWithCI (S "Adding comments") t || startsWithCI (S "Add comments") t ||
  startsWithCI (S "Missing comments") t || startsWithCI (S "No comments") t ||
  startsWithCI (S "Comment your") t

/-- Noise rule for ^(Use (more )?descriptive|Variable naming|Rename (the )?variable),
case-insensitive. -/
def noiseNamingAdvice (t : List Char) : Bool :=
  startsWithCI (S "Use more descriptive") t || startsWithCI (S "Use descriptive") t ||
  startsWithCI (S "Variable naming") t || startsWithCI (S "Rename the variable") t ||
  startsWithCI (S "Rename variable") t

/-- The noise filter isNoiseItem of the source: trim, then apply the
eleven early-return rules in order (equivalently, their disjunction). -/
def isNoiseItem (text : List Char) : Bool :=
  let trimmed := trimL text
  noiseHeading trimmed || noiseFence trimmed || noiseBoilerplate trimmed ||
  noiseNarrative trimmed || noiseCodeKeyword trimmed || noiseQuoted trimmed ||
  noiseShort trimmed || noiseAdvisory trimmed || noisePlatitude trimmed ||
  noiseCommentAdvice trimmed || noiseNamingAdvice trimmed

/-- Sentence-boundary characters of the part extractor. -/
def isBoundaryChar (c : Char) : Bool := c = '.' || c = '!' || c = '?'

/-- Split off the shortest prefix ending in a sentence-boundary character,
returning it together with everything after it. -/
def splitAtBoundary : List Char → Option (List Char × List Char)
  | [] => none
  | c :: cs =>
    if isBoundaryChar c then some ([c], cs)
    else
      match splitAtBoundary cs with
      | some (pre, post) => some (c :: pre, post)
      | none => none

/-- The regex ^([^.!?]+[.!?])\s*(.*)$ with the dot-all flag: it succeeds
exactly when at least one non-boundary character precedes the first
boundary character; the first group is the prefix through that boundary
character, the second everything after it (whitespace between the two is
immaterial because both groups are trimmed by the caller). -/
def sentenceMatch (cs : List Char) : Option (List Char × List Char) :=
  match cs with
  | [] => none
  | c :: _ => if isBoundaryChar c then none else splitAtBoundary cs

/-- The replace of ^[-*]\s*\*?\*? in extractParts: one list-marker
character, a run of whitespace, then up to two emphasis stars. -/
def stripMarker2 (cs : List Char) : List Char :=
  match cs with
  | c :: rest =>
    if c = '-' || c = '*' then
      match rest.dropWhile isWsChar with
      | '*' :: t =>
        match t with
        | '*' :: t2 => t2
        | _ => t
      | r1 => r1
    else cs
  | [] => []

/-- The fixed fallback suggestion sentence of extractParts. -/
def fallbackSuggestion : List Char :=
  S "Consider refactoring this part of the code to follow best practices."

/-- Result record of the part extractor. -/
structure Extracted where
  title : List Char
  description : List Char
  suggestion : List Char
deriving DecidableEq, Repr

/-- The part extractor extractParts of the source. -/
def extractParts (text : List Char) : Extracted :=
  let cleaned := trimL (stripMarker2 text)
  let m := sentenceMatch cleaned
  let title0 :=
    match m with
    | some (pre, _) => trimL pre
    | none => cleaned.take 80
  let rest :=
    match m with
    | some (_, post) => trimL post
    | none => []
  let title := if 80 < title0.length then title0.take 77 ++ S "..." else title0
  let suggestion := if rest.isEmpty then fallbackSuggestion else rest
  ⟨title, cleaned, suggestion⟩

/-- The policy filter isOverEngineered of the source: the sequence of
early-return substring tests, written as their disjunction. -/
def isOverEngineered (title suggestion : List Char) : Bool :=
  let titleLower := lowerL title
  let suggestionLower := lowerL suggestion
  hasSubstr titleLower (S "refactor") || hasSubstr suggestionLower (S "refactor") ||
  hasSubstr titleLower (S "restructure") || hasSubstr suggestionLower (S "restructure") ||
  hasSubstr titleLower (S "complex") || hasSubstr suggestionLower (S "complex") ||
  hasSubstr titleLower (S "abstract") || hasSubstr suggestionLower (S "abstract") ||
  hasSubstr titleLower (S "comment") || hasSubstr suggestionLower (S "comment") ||
  hasSubstr titleLower (S "document") || hasSubstr suggestionLower (S "document") ||
  (isPrefixL (S "consider") titleLower && decide (suggestionLower.length < 30)) ||
  hasSubstr titleLower (S "time complexity") || hasSubstr titleLower (S "space complexity") ||
  hasSubstr titleLower (S "big o") || hasSubstr titleLower (S "o(n)")

/-- Output severity values. -/
inductive Severity where
  | critical
  | high
  | medium
  | low
deriving DecidableEq, Repr

/-- Display rank of a severity: the bucket processing order. -/
def rank : Severity → Nat
  | .critical => 0
  | .high => 1
  | .medium => 2
  | .low => 3

/-- The structured issue record produced by the assembler. -/
structure ReviewIssue where
  id : String
  severity : Severity
  title : List Char
  description : List Char
  suggestion : List Char
deriving DecidableEq, Repr

/-- Normalisation of the deduplicator: lower-case, then keep only
lowercase letters and digits. -/
def normalizeTitle (s : List Char) : List Char :=
  (lowerL s).filter (fun c => ('a' ≤ c && c ≤ 'z') || ('0' ≤ c && c ≤ '9'))

/-- The deduplicator isDuplicate of the source: normalized equality or
two-directional containment against any accepted issue. -/
def isDuplicate (existing : List ReviewIssue) (newTitle : List Char) : Bool :=
  let norm := normalizeTitle newTitle
  existing.any (fun e =>
    let existNorm := normalizeTitle e.title
    decide (existNorm = norm) || hasSubstr existNorm norm || hasSubstr norm existNorm)

/-- The four bucket keys of the raw feedback. -/
inductive SeverityKey where
  | Critical
  | High
  | Medium
  | Low
deriving DecidableEq, Repr

/-- The severityMap record of the source. -/
def severityMap : SeverityKey → Severity
  | .Critical => .critical
  | .High => .high
  | .Medium => .medium
  | .Low => .low

/-- The fixed bucket processing order. -/
def severityOrder : List SeverityKey := [.Critical, .High, .Medium, .Low]

/-- The raw feedback mapping: four severity buckets of raw statements. -/
structure RawFeedback where
  Critical : List (List Char)
  High : List (List Char)
  Medium : List (List Char)
  Low : List (List Char)
deriving Repr

/-- Bucket lookup review[severity] (always present in the typed model). -/
def bucket (r : RawFeedback) : SeverityKey → List (List Char)
  | .Critical => r.Critical
  | .High => r.High
  | .Medium => r.Medium
  | .Low => r.Low

/-- The global cap on emitted issues. -/
def MAX_ISSUES : Nat := 5

/-- The replace of ^[-*]\s* applied to each raw item in the assembler loop. -/
def stripMarker1 (cs : List Char) : List Char :=
  match cs with
  | c :: rest => if c = '-' || c = '*' then rest.dropWhile isWsChar else cs
  | [] => []

/-- One assembler iteration body: clean the raw item, then run the noise,
policy and duplicate checks; returns the extracted parts when the item is
admitted and none when it is skipped. -/
def admitItem (issues : List ReviewIssue) (item : List Char) : Option Extracted :=
  let cleaned := trimL (stripMarker1 item)
  if cleaned.isEmpty then none
  else if isNoiseItem cleaned then none
  else
    let p := extractParts cleaned
    if isOverEngineered p.title p.suggestion then none
    else if isDuplicate issues p.title then none
    else some p

/-- The issue record pushed by the assembler for an admitted statement. -/
def mkIssue (ctr : Nat) (sev : Severity) (p : Extracted) : ReviewIssue :=
  { id := toString ctr, severity := sev, title := p.title,
    description := p.description, suggestion := p.suggestion }

/-- The assembler inner loop over one bucket, with the early break once
the issue list reaches MAX_ISSUES. -/
def processBucket (sev : Severity) :
    List (List Char) → List ReviewIssue → Nat → List ReviewIssue × Nat
  | [], issues, ctr => (issues, ctr)
  | item :: rest, issues, ctr =>
    if MAX_ISSUES ≤ issues.length then (issues, ctr)
    else
      match admitItem issues item with
      | none => processBucket sev rest issues ctr
      | some p => processBucket sev rest (issues ++ [mkIssue ctr sev p]) (ctr + 1)

/-- The assembler outer loop over the bucket keys, with the early break
once the issue list reaches MAX_ISSUES. -/
def processBuckets (r : RawFeedback) :
    List SeverityKey → List ReviewIssue → Nat → List ReviewIssue
  | [], issues, _ => issues
  | k :: ks, issues, ctr =>
    let res := processBucket (severityMap k) (bucket r k) issues ctr
    if MAX_ISSUES ≤ res.1.length then res.1
    else processBuckets r ks res.1 res.2

/-- The issue assembler parseReviewResponse of the source. -/
def parseReviewResponse (r : RawFeedback) : List ReviewIssue :=
  processBuckets r severityOrder [] 1

/-- The assembler inner loop with the MAX_ISSUES cap removed; used only to
count the admissible statements of an input for the cap claim. -/
def processBucketNoCap (sev : Severity) :
    List (List Char) → List ReviewIssue → Nat → List ReviewIssue × Nat
  | [], issues, ctr => (issues, ctr)
  | item :: rest, issues, ctr =>
    match admitItem issues item with
    | none => processBucketNoCap sev rest issues ctr
    | some p => processBucketNoCap sev rest (issues ++ [mkIssue ctr sev p]) (ctr + 1)

/-- The assembler outer loop with the MAX_ISSUES cap removed. -/
def processBucketsNoCap (r : RawFeedback) :
    List SeverityKey → List ReviewIssue → Nat → List ReviewIssue
  | [], issues, _ => issues
  | k :: ks, issues, ctr =>
    let res := processBucketNoCap (severityMap k) (bucket r k) issues ctr
    processBucketsNoCap r ks res.1 res.2

/-- The whole pipeline with the cap removed. -/
def parseReviewNoCap (r : RawFeedback) : List ReviewIssue :=
  processBucketsNoCap r severityOrder [] 1

/-- Number of admissible statements of an input: statements that are
non-empty after list-marker stripping, not noise, not policy violations
and not duplicates of earlier admitted statements. -/
def admissibleTotal (r : RawFeedback) : Nat := (parseReviewNoCap r).length

/-- ASCII letter test for the regex class [a-zA-Z]. -/
def isAsciiLetter (c : Char) : Bool := ('a' ≤ c && c ≤ 'z') || ('A' ≤ c && c ≤ 'Z')

/-- First argument is a literal suffix of the second. -/
def isSuffixL (pat cs : List Char) : Bool := isPrefixL pat.reverse cs.reverse

/-- The code-fence stripper stripCodeFences of the source: trim, remove
one leading fence marker with optional language tag and line break, remove
one trailing fence marker with optional preceding line break, trim. -/
def stripCodeFences (code : List Char) : List Char :=
  let stripped := trimL code
  let s1 :=
    if isPrefixL (S "```") stripped then
      match (stripped.drop 3).dropWhile isAsciiLetter with
      | '\n' :: t => t
      | r => r
    else stripped
  let s2 :=
    if isSuffixL ([Char.ofNat 10] ++ S "```") s1 then s1.take (s1.length - 4)
    else if isSuffixL (S "```") s1 then s1.take (s1.length - 3)
    else s1
  trimL s2

/-! ### Concrete inputs used by the claim theorems -/

/-- First statement of the duplicate-containment scenario. -/
def sqlStmt1 : List Char := S "SQL injection in query builder."

/-- Second statement of the duplicate-containment scenario. -/
def sqlStmt2 : List Char := S "SQL Injection risk in the query-builder function."

/-- The two-statement critical bucket of the duplicate-containment scenario. -/
def sqlFeedback : RawFeedback := ⟨[sqlStmt1, sqlStmt2], [], [], []⟩

def capStmt1 : List Char :=
  S "Null pointer dereference when input is empty. Add a guard clause before dereferencing."

def capStmt2 : List Char :=
  S "Buffer overflow in the copy loop. Use a bounded copy routine instead."

def capStmt3 : List Char :=
  S "SQL injection in the query builder. Use parameterized queries for user input."

def capStmt4 : List Char :=
  S "Integer overflow when adding large values. Use a wider integer type for the sum."

def capStmt5 : List Char :=
  S "Race condition on the shared counter. Guard the counter with a mutex before updating."

def capStmt6 : List Char :=
  S "Division by zero when the list is empty. Check the denominator before dividing."

/-- Six admissible critical statements, exceeding the cap of five. -/
def capFeedback : RawFeedback :=
  ⟨[capStmt1, capStmt2, capStmt3, capStmt4, capStmt5, capStmt6], [], [], []⟩

/-- The issue the pipeline produces for the first statement of capFeedback. -/
def capIssue1 : ReviewIssue :=
  { id := "1", severity := Severity.critical,
    title := S "Null pointer dereference when input is empty.",
    description := capStmt1,
    suggestion := S "Add a guard clause before dereferencing." }

/-- A title free of every policy trigger term. -/
def policyTitle : List Char := S "Nested loops detected here."

/-- A suggestion containing the algorithmic-complexity term big o but no
term of the title-and-suggestion group. -/
def policySuggestion : List Char := S "This runs in big o of n squared for large inputs."

/-- A statement wrapped in two different quote characters: a double quote
at the start and a single quote at the end. -/
def mixedQuoteStmt : List Char := quoteD :: (S "mixed quote statement overall" ++ [apos])

/-- A statement wrapped in a single quote at the start and a double quote
at the end. -/
def mixedQuoteStmt2 : List Char := apos :: (S "another mixed quote case" ++ [quoteD])

/-- A first sentence of 101 characters followed by a remark. -/
def longSentence : List Char := List.replicate 100 'a' ++ S ". Trailing remark follows here."

/-- The first sentence of longSentence, boundary character included. -/
def longPre : List Char := List.replicate 100 'a' ++ S "."

/-- Everything of longSentence after the first boundary character. -/
def longPost : List Char := S " Trailing remark follows here."

/-- A statement with no sentence-boundary character at all. -/
def noBoundaryText : List Char := S "no boundary here at all"

/-- A single-sentence statement: nothing follows the boundary character. -/
def singleSentenceText : List Char := S "Single sentence statement."

/-! ### Unfolding equations for the assembler loops -/

theorem processBucket_nil (sev : Severity) (issues : List ReviewIssue) (ctr : Nat) :
    processBucket sev [] issues ctr = (issues, ctr) := rfl

theorem processBucket_cons_cap {sev : Severity} {item : List Char} {rest : List (List Char)}
    {issues : List ReviewIssue} {ctr : Nat} (h : MAX_ISSUES ≤ issues.length) :
    processBucket sev (item :: rest) issues ctr = (issues, ctr) := by
  simp [processBucket, h]

theorem processBucket_cons_none {sev : Severity} {item : List Char} {rest : List (List Char)}
    {issues : List ReviewIssue} {ctr : Nat} (hcap : ¬ MAX_ISSUES ≤ issues.length)
    (h : admitItem issues item = none) :
    processBucket sev (item :: rest) issues ctr = processBucket sev rest issues ctr := by
  simp [processBucket, hcap, h]

theorem processBucket_cons_some {sev : Severity} {item : List Char} {rest : List (List Char)}
    {issues : List ReviewIssue} {ctr : Nat} {p : Extracted}
    (hcap : ¬ MAX_ISSUES ≤ issues.length) (h : admitItem issues item = some p) :
    processBucket sev (item :: rest) issues ctr =
      processBucket sev rest (issues ++ [mkIssue ctr sev p]) (ctr + 1) := by
  simp [processBucket, hcap, h]

theorem processBucketNoCap_nil (sev : Severity) (issues : List ReviewIssue) (ctr : Nat) :
    processBucketNoCap sev [] issues ctr = (issues, ctr) := rfl

theorem processBucketNoCap_cons_none {sev : Severity} {item : List Char}
    {rest : List (List Char)} {issues : List ReviewIssue} {ctr : Nat}
    (h : admitItem issues item = none) :
    processBucketNoCap sev (item :: rest) issues ctr = processBucketNoCap sev rest issues ctr := by
  simp [processBucketNoCap, h]

theorem processBucketNoCap_cons_some {sev : Severity} {item : List Char}
    {rest : List (List Char)} {issues : List ReviewIssue} {ctr : Nat} {p : Extracted}
    (h : admitItem issues item = some p) :
    processBucketNoCap sev (item :: rest) issues ctr =
      processBucketNoCap sev rest (issues ++ [mkIssue ctr sev p]) (ctr + 1) := by
  simp [processBucketNoCap, h]

theorem processBuckets_nil (r : RawFeedback) (issues : List ReviewIssue) (ctr : Nat) :
    processBuckets r [] issues ctr = issues := rfl

theorem processBuckets_cons_cap {r : RawFeedback} {k : SeverityKey} {ks : List SeverityKey}
    {issues : List ReviewIssue} {ctr : Nat}
    (h : MAX_ISSUES ≤ (processBucket (severityMap k) (bucket r k) issues ctr).1.length) :
    processBuckets r (k :: ks) issues ctr =
      (processBucket (severityMap k) (bucket r k) issues ctr).1 := by
  simp [processBuckets, h]

theorem processBuckets_cons_nocap {r : RawFeedback} {k : SeverityKey} {ks : List SeverityKey}
    {issues : List ReviewIssue} {ctr : Nat}
    (h : ¬ MAX_ISSUES ≤ (processBucket (severityMap k) (bucket r k) issues ctr).1.length) :
    processBuckets r (k :: ks) issues ctr =
      processBuckets r ks (processBucket (severityMap k) (bucket r k) issues ctr).1
        (processBucket (severityMap k) (bucket r k) issues ctr).2 := by
  simp [processBuckets, h]

theorem processBucketsNoCap_nil (r : RawFeedback) (issues : List ReviewIssue) (ctr : Nat) :
    processBucketsNoCap r [] issues ctr = issues := rfl

theorem processBucketsNoCap_cons (r : RawFeedback) (k : SeverityKey) (ks : List SeverityKey)
    (issues : List ReviewIssue) (ctr : Nat) :
    processBucketsNoCap r (k :: ks) issues ctr =
      processBucketsNoCap r ks (processBucketNoCap (severityMap k) (bucket r k) issues ctr).1
        (processBucketNoCap (severityMap k) (bucket r k) issues ctr).2 := rfl

/-! ### Invariant lemmas about the assembler loops -/

theorem admitItem_policy {issues : List ReviewIssue} {item : List Char} {p : Extracted}
    (h : admitItem issues item = some p) :
    isOverEngineered p.title p.suggestion = false := by
  simp only [admitItem] at h
  split_ifs at h with h1 h2 h3 h4
  obtain rfl : extractParts (trimL (stripMarker1 item)) = p := Option.some.inj h
  simpa using h3

theorem processBucket_spec (sev : Severity) (items : List (List Char)) :
    ∀ issues ctr, ∃ t : List ReviewIssue,
      (processBucket sev items issues ctr).1 = issues ++ t ∧
      (processBucket sev items issues ctr).2 = ctr + t.length ∧
      ∀ i (h : i < t.length),
        (t.get ⟨i, h⟩).severity = sev ∧
        (t.get ⟨i, h⟩).id = toString (ctr + i) ∧
        isOverEngineered (t.get ⟨i, h⟩).title (t.get ⟨i, h⟩).suggestion = false := by
  induction items with
  | nil =>
    intro issues ctr
    exact ⟨[], by simp [processBucket_nil], by simp [processBucket_nil],
      by intro i h; simp at h⟩
  | cons item rest ih =>
    intro issues ctr
    by_cases hcap : MAX_ISSUES ≤ issues.length
    · refine ⟨[], ?_, ?_, ?_⟩
      · rw [processBucket_cons_cap hcap]; simp
      · rw [processBucket_cons_cap hcap]; simp
      · intro i h; simp at h
    · cases hadm : admitItem issues item with
      | none =>
        obtain ⟨t, h1, h2, h3⟩ := ih issues ctr
        rw [processBucket_cons_none hcap hadm]
        exact ⟨t, h1, h2, h3⟩
      | some p =>
        obtain ⟨t, h1, h2, h3⟩ := ih (issues ++ [mkIssue ctr sev p]) (ctr + 1)
        rw [processBucket_cons_some hcap hadm]
        refine ⟨mkIssue ctr sev p :: t, ?_, ?_, ?_⟩
        · rw [h1, List.append_assoc]; rfl
        · rw [h2]; simp only [List.length_cons]; omega
        · intro i h
          cases i with
          | zero =>
            refine ⟨rfl, by simp [mkIssue], ?_⟩
            simpa [mkIssue] using admitItem_policy hadm
          | succ n =>
            have hn : n < t.length := by simpa using h
            have hfacts := h3 n hn
            refine ⟨?_, ?_, ?_⟩
            · simpa [List.get_cons_succ] using hfacts.1
            · have hid : (t.get ⟨n, hn⟩).id = toString (ctr + 1 + n) := hfacts.2.1
              simpa [List.get_cons_succ, Nat.add_assoc, Nat.add_comm 1 n] using hid
            · simpa [List.get_cons_succ] using hfacts.2.2

theorem processBucketNoCap_append (sev : Severity) (items : List (List Char)) :
    ∀ issues ctr, ∃ t : List ReviewIssue,
      (processBucketNoCap sev items issues ctr).1 = issues ++ t ∧
      (processBucketNoCap sev items issues ctr).2 = ctr + t.length := by
  induction items with
  | nil =>
    intro issues ctr
    exact ⟨[], by simp [processBucketNoCap_nil], by simp [processBucketNoCap_nil]⟩
  | cons item rest ih =>
    intro issues ctr
    cases hadm : admitItem issues item with
    | none =>
      obtain ⟨t, h1, h2⟩ := ih issues ctr
      rw [processBucketNoCap_cons_none hadm]
      exact ⟨t, h1, h2⟩
    | some p =>
      obtain ⟨t, h1, h2⟩ := ih (issues ++ [mkIssue ctr sev p]) (ctr + 1)
      rw [processBucketNoCap_cons_some hadm]
      refine ⟨mkIssue ctr sev p :: t, ?_, ?_⟩
      · rw [h1, List.append_assoc]; rfl
      · rw [h2]; simp only [List.length_cons]; omega

theorem processBucket_cap (sev : Severity) (items : List (List Char)) :
    ∀ issues ctr, issues.length ≤ MAX_ISSUES →
      (processBucket sev items issues ctr).1 =
        (processBucketNoCap sev items issues ctr).1.take MAX_ISSUES ∧
      ((processBucketNoCap sev items issues ctr).1.length ≤ MAX_ISSUES →
        processBucket sev items issues ctr = processBucketNoCap sev items issues ctr) := by
  induction items with
  | nil =>
    intro issues ctr h
    refine ⟨?_, fun _ => rfl⟩
    rw [processBucket_nil, processBucketNoCap_nil]
    exact (List.take_of_length_le h).symm
  | cons item rest ih =>
    intro issues ctr h
    by_cases hcap : MAX_ISSUES ≤ issues.length
    · have hlen : issues.length = MAX_ISSUES := le_antisymm h hcap
      obtain ⟨t, h1, h2⟩ := processBucketNoCap_append sev (item :: rest) issues ctr
      rw [processBucket_cons_cap hcap]
      constructor
      · rw [h1, List.take_append_of_le_length (le_of_eq hlen.symm),
          List.take_of_length_le h]
      · intro hle
        rw [h1] at hle
        simp only [List.length_append] at hle
        have ht : t = [] := List.eq_nil_of_length_eq_zero (by omega)
        subst ht
        refine Eq.symm ?_
        rw [Prod.ext_iff]
        exact ⟨by rw [h1]; simp, by rw [h2]; simp⟩
    · cases hadm : admitItem issues item with
      | none =>
        rw [processBucket_cons_none hcap hadm, processBucketNoCap_cons_none hadm]
        exact ih issues ctr h
      | some p =>
        rw [processBucket_cons_some hcap hadm, processBucketNoCap_cons_some hadm]
        refine ih (issues ++ [mkIssue ctr sev p]) (ctr + 1) ?_
        simp only [List.length_append, List.length_cons, List.length_nil]
        omega

theorem processBucketsNoCap_append (r : RawFeedback) (ks : List SeverityKey) :
    ∀ issues ctr, ∃ t : List ReviewIssue,
      processBucketsNoCap r ks issues ctr = issues ++ t := by
  induction ks with
  | nil =>
    intro issues ctr
    exact ⟨[], by simp [processBucketsNoCap_nil]⟩
  | cons k ks ih =>
    intro issues ctr
    obtain ⟨t1, h1, _⟩ :=
      processBucketNoCap_append (severityMap k) (bucket r k) issues ctr
    obtain ⟨t2, h2⟩ :=
      ih (processBucketNoCap (severityMap k) (bucket r k) issues ctr).1
        (processBucketNoCap (severityMap k) (bucket r k) issues ctr).2
    refine ⟨t1 ++ t2, ?_⟩
    rw [processBucketsNoCap_cons, h2, h1, List.append_assoc]

theorem processBuckets_cap (r : RawFeedback) (ks : List SeverityKey) :
    ∀ issues ctr, issues.length ≤ MAX_ISSUES →
      processBuckets r ks issues ctr = (processBucketsNoCap r ks issues ctr).take MAX_ISSUES := by
  induction ks with
  | nil =>
    intro issues ctr h
    rw [processBuckets_nil, processBucketsNoCap_nil, List.take_of_length_le h]
  | cons k ks ih =>
    intro issues ctr h
    obtain ⟨htake, hlock⟩ := processBucket_cap (severityMap k) (bucket r k) issues ctr h
    by_cases hcap : MAX_ISSUES ≤ (processBucket (severityMap k) (bucket r k) issues ctr).1.length
    · have hub : MAX_ISSUES ≤ (processBucketNoCap (severityMap k) (bucket r k) issues ctr).1.length := by
        have hmin := congrArg List.length htake
        rw [List.length_take] at hmin
        omega
      obtain ⟨t, ht⟩ :=
        processBucketsNoCap_append r ks
          (processBucketNoCap (severityMap k) (bucket r k) issues ctr).1
          (processBucketNoCap (severityMap k) (bucket r k) issues ctr).2
      rw [processBuckets_cons_cap hcap, processBucketsNoCap_cons, ht,
        List.take_append_of_le_length hub, htake]
    · have hcb : (processBucket (severityMap k) (bucket r k) issues ctr).1.length < MAX_ISSUES :=
        Nat.not_le.mp hcap
      have hul : (processBucketNoCap (severityMap k) (bucket r k) issues ctr).1.length ≤ MAX_ISSUES := by
        have hmin := congrArg List.length htake
        rw [List.length_take] at hmin
        omega
      have heq := hlock hul
      rw [processBuckets_cons_nocap hcap, processBucketsNoCap_cons, heq]
      exact ih (processBucketNoCap (severityMap k) (bucket r k) issues ctr).1
        (processBucketNoCap (severityMap k) (bucket r k) issues ctr).2
        (by rw [← heq]; exact Nat.le_of_lt (heq ▸ hcb))

theorem processBuckets_spec (r : RawFeedback) (ks : List SeverityKey) :
    ∀ issues ctr, ∃ t : List ReviewIssue,
      processBuckets r ks issues ctr = issues ++ t ∧
      ∀ i (h : i < t.length),
        (t.get ⟨i, h⟩).id = toString (ctr + i) ∧
        isOverEngineered (t.get ⟨i, h⟩).title (t.get ⟨i, h⟩).suggestion = false := by
  induction ks with
  | nil =>
    intro issues ctr
    exact ⟨[], by simp [processBuckets_nil], by intro i h; simp at h⟩
  | cons k ks ih =>
    intro issues ctr
    obtain ⟨t1, h1, h2, h3⟩ := processBucket_spec (severityMap k) (bucket r k) issues ctr
    by_cases hcap : MAX_ISSUES ≤ (processBucket (severityMap k) (bucket r k) issues ctr).1.length
    · refine ⟨t1, ?_, ?_⟩
      · rw [processBuckets_cons_cap hcap, h1]
      · intro i h
        exact ⟨(h3 i h).2.1, (h3 i h).2.2⟩
    · obtain ⟨t2, g1, g2⟩ := ih (processBucket (severityMap k) (bucket r k) issues ctr).1
        (processBucket (severityMap k) (bucket r k) issues ctr).2
      refine ⟨t1 ++ t2, ?_, ?_⟩
      · rw [processBuckets_cons_nocap hcap, g1, h1, List.append_assoc]
      · intro i h
        by_cases hi : i < t1.length
        · have hget : (t1 ++ t2).get ⟨i, h⟩ = t1.get ⟨i, hi⟩ := by
            simp [List.get_eq_getElem, List.getElem_append_left hi]
          rw [hget]
          exact ⟨(h3 i hi).2.1, (h3 i hi).2.2⟩
        · have hile : t1.length ≤ i := Nat.not_lt.mp hi
          have hlt2 : i - t1.length < t2.length := by
            have hh := h
            simp only [List.length_append] at hh
            omega
          have hget : (t1 ++ t2).get ⟨i, h⟩ = t2.get ⟨i - t1.length, hlt2⟩ := by
            simp [List.get_eq_getElem, List.getElem_append_right hile]
          rw [hget]
          have gfacts := g2 (i - t1.length) hlt2
          refine ⟨?_, gfacts.2⟩
          rw [gfacts.1, h2]
          congr 1
          omega

theorem processBuckets_sorted (r : RawFeedback) (ks : List SeverityKey) :
    ∀ issues ctr,
      List.Pairwise (fun a b : ReviewIssue => rank a.severity ≤ rank b.severity) issues →
      (∀ x ∈ issues, ∀ k ∈ ks, rank x.severity ≤ rank (severityMap k)) →
      List.Pairwise (fun k1 k2 : SeverityKey => rank (severityMap k1) ≤ rank (severityMap k2)) ks →
      List.Pairwise (fun a b : ReviewIssue => rank a.severity ≤ rank b.severity)
        (processBuckets r ks issues ctr) := by
  induction ks with
  | nil =>
    intro issues ctr hs _ _
    rw [processBuckets_nil]
    exact hs
  | cons k ks ih =>
    intro issues ctr hs hup hks
    obtain ⟨t1, h1, _, h3⟩ := processBucket_spec (severityMap k) (bucket r k) issues ctr
    have hts : ∀ x ∈ t1, x.severity = severityMap k := by
      intro x hx
      obtain ⟨n, hn⟩ := List.mem_iff_get.mp hx
      rw [← hn]
      exact (h3 n.1 n.2).1
    have hnew : List.Pairwise (fun a b : ReviewIssue => rank a.severity ≤ rank b.severity)
        (issues ++ t1) := by
      rw [List.pairwise_append]
      refine ⟨hs, ?_, ?_⟩
      · rw [List.pairwise_iff_get]
        intro i j _
        rw [hts _ (List.get_mem t1 i.1 i.2), hts _ (List.get_mem t1 j.1 j.2)]
      · intro a ha b hb
        rw [hts b hb]
        exact hup a ha k (List.mem_cons_self k ks)
    by_cases hcap : MAX_ISSUES ≤ (processBucket (severityMap k) (bucket r k) issues ctr).1.length
    · rw [processBuckets_cons_cap hcap, h1]
      exact hnew
    · rw [processBuckets_cons_nocap hcap, h1]
      refine ih _ _ hnew ?_ ?_
      · intro x hx k2 hk2
        rcases List.mem_append.mp hx with hxi | hxt
        · exact hup x hxi k2 (List.mem_cons_of_mem _ hk2)
        · rw [hts x hxt]
          exact (List.pairwise_cons.mp hks).1 k2 hk2
      · exact (List.pairwise_cons.mp hks).2

/-! ### Helper lemmas about the part extractor and policy filter -/

theorem splitAtBoundary_eq_none (cs : List Char)
    (h : ∀ c ∈ cs, isBoundaryChar c = false) : splitAtBoundary cs = none := by
  induction cs with
  | nil => rfl
  | cons c t ih =>
    simp [splitAtBoundary, h c (List.mem_cons_self c t),
      ih (fun x hx => h x (List.mem_cons_of_mem c hx))]

theorem sentenceMatch_eq_none (cs : List Char)
    (h : ∀ c ∈ cs, isBoundaryChar c = false) : sentenceMatch cs = none := by
  cases cs with
  | nil => rfl
  | cons c t =>
    simp only [sentenceMatch]
    by_cases hb : isBoundaryChar c = true
    · simp [hb]
    · simp only [hb, if_false, Bool.false_eq_true, if_neg]
      exact splitAtBoundary_eq_none _ h

theorem extractParts_none {text : List Char}
    (hm : sentenceMatch (trimL (stripMarker2 text)) = none) :
    extractParts text =
      ⟨(trimL (stripMarker2 text)).take 80, trimL (stripMarker2 text), fallbackSuggestion⟩ := by
  have hnot : ¬ 80 < ((trimL (stripMarker2 text)).take 80).length :=
    Nat.not_lt.mpr (List.length_take_le 80 _)
  simp [extractParts, hm, hnot]

theorem extractParts_some {text pre post : List Char}
    (hm : sentenceMatch (trimL (stripMarker2 text)) = some (pre, post)) :
    extractParts text =
      ⟨if 80 < (trimL pre).length then (trimL pre).take 77 ++ S "..." else trimL pre,
       trimL (stripMarker2 text),
       if (trimL post).isEmpty then fallbackSuggestion else trimL post⟩ := by
  simp [extractParts, hm]

theorem isOverEngineered_fallback (t : List Char) :
    isOverEngineered t fallbackSuggestion = true := by
  have h : hasSubstr (lowerL fallbackSuggestion) (S "refactor") = true := by decide
  simp [isOverEngineered, h]

/-! ### The claim theorems -/

/-- Claim C1: for every RawFeedback whose combined total of admissible
statements (non-empty after list-marker stripping, not noise, not a policy
violation, not a duplicate of an earlier admitted statement) is at least
five, the assembler returns exactly five issues; and for every input the
returned sequence has length at most five. -/
theorem claim_C1 (r : RawFeedback) :
    (parseReviewResponse r).length ≤ 5 ∧
    (5 ≤ admissibleTotal r → (parseReviewResponse r).length = 5) := by
  have h : parseReviewResponse r = (parseReviewNoCap r).take MAX_ISSUES :=
    processBuckets_cap r severityOrder [] 1 (by simp)
  constructor
  · rw [h]
    exact List.length_take_le MAX_ISSUES (parseReviewNoCap r)
  · intro h5
    have h5b : 5 ≤ (parseReviewNoCap r).length := h5
    rw [h, List.length_take]
    have hM : MAX_ISSUES = 5 := rfl
    rw [hM]
    exact min_eq_left h5b

/-- Witness for claim C1: a raw feedback with six admissible critical
statements has at least five admissible statements and yields exactly five
issues. -/
theorem claim_C1_witness :
    5 ≤ admissibleTotal capFeedback ∧ (parseReviewResponse capFeedback).length = 5 :=
  ⟨by decide, (claim_C1 capFeedback).2 (by decide)⟩

/-- Claim C2 counterexample: on the bucket with the two SQL-injection
statements, the pipeline does not keep the first statement as its only
issue; it returns no issues at all. -/
theorem claim_C2_counterexample :
    (parseReviewResponse sqlFeedback).map (fun x => x.title) ≠ [sqlStmt1] := by
  decide

/-- Claim C2 (amended): for the bucket with the two SQL-injection
statements the pipeline returns no issues: both statements are single
sentences, so the part extractor assigns each the fallback suggestion,
which contains the trigger term refactor, and the policy filter rejects
both; the duplicate check is never reached. -/
theorem claim_C2_amended :
    parseReviewResponse sqlFeedback = [] ∧
    (extractParts sqlStmt1).suggestion = fallbackSuggestion ∧
    (extractParts sqlStmt2).suggestion = fallbackSuggestion ∧
    isOverEngineered (extractParts sqlStmt1).title (extractParts sqlStmt1).suggestion = true ∧
    isOverEngineered (extractParts sqlStmt2).title (extractParts sqlStmt2).suggestion = true := by
  exact ⟨by decide, by decide, by decide, by decide, by decide⟩

/-- Claim C3 counterexample: a pair whose suggestion, but not title,
contains the term big o is not flagged by the policy filter. -/
theorem claim_C3_counterexample :
    hasSubstr (lowerL policySuggestion) (S "big o") = true ∧
    hasSubstr (lowerL policyTitle) (S "big o") = false ∧
    isOverEngineered policyTitle policySuggestion = false := by
  exact ⟨by decide, by decide, by decide⟩

/-- Claim C3 (amended): the policy filter flags a pair whenever one of the
terms refactor, restructure, complex, abstract, comment, document occurs
case-insensitively in the title or in the suggestion, or one of the terms
time complexity, space complexity, big o, o(n) occurs case-insensitively
in the title; the four algorithmic-complexity terms are checked against
the title only. -/
theorem claim_C3_amended (title suggestion : List Char)
    (h :
      hasSubstr (lowerL title) (S "refactor") = true ∨
      hasSubstr (lowerL suggestion) (S "refactor") = true ∨
      hasSubstr (lowerL title) (S "restructure") = true ∨
      hasSubstr (lowerL suggestion) (S "restructure") = true ∨
      hasSubstr (lowerL title) (S "complex") = true ∨
      hasSubstr (lowerL suggestion) (S "complex") = true ∨
      hasSubstr (lowerL title) (S "abstract") = true ∨
      hasSubstr (lowerL suggestion) (S "abstract") = true ∨
      hasSubstr (lowerL title) (S "comment") = true ∨
      hasSubstr (lowerL suggestion) (S "comment") = true ∨
      hasSubstr (lowerL title) (S "document") = true ∨
      hasSubstr (lowerL suggestion) (S "document") = true ∨
      hasSubstr (lowerL title) (S "time complexity") = true ∨
      hasSubstr (lowerL title) (S "space complexity") = true ∨
      hasSubstr (lowerL title) (S "big o") = true ∨
      hasSubstr (lowerL title) (S "o(n)") = true) :
    isOverEngineered title suggestion = true := by
  rcases h with h|h|h|h|h|h|h|h|h|h|h|h|h|h|h|h <;> simp [isOverEngineered, h]

/-- Witness for the amended claim C3: a title containing refactor is
flagged by the policy filter. -/
theorem claim_C3_witness :
    hasSubstr (lowerL (S "Refactor the parser module.")) (S "refactor") = true ∧
    isOverEngineered (S "Refactor the parser module.")
      (S "Split the parsing into smaller functions.") = true :=
  ⟨by decide, claim_C3_amended _ _ (Or.inl (by decide))⟩

/-- Claim C4: for every input, the severity values of the returned issues
are non-decreasing under the order critical, high, medium, low. -/
theorem claim_C4 (r : RawFeedback) :
    List.Pairwise (fun a b : Severity => rank a ≤ rank b)
      ((parseReviewResponse r).map (fun x => x.severity)) := by
  rw [List.pairwise_map]
  refine processBuckets_sorted r severityOrder [] 1 List.Pairwise.nil ?_ ?_
  · intro x hx
    simp at hx
  · decide

/-- Claim C5: for every input, the id fields of the returned issues are
exactly the decimal strings one to N in emission order. -/
theorem claim_C5 (r : RawFeedback) :
    (parseReviewResponse r).map (fun x => x.id) =
      (List.range (parseReviewResponse r).length).map (fun i => toString (i + 1)) := by
  obtain ⟨t, h1, h2⟩ := processBuckets_spec r severityOrder [] 1
  have ht : parseReviewResponse r = t := by
    simpa [parseReviewResponse] using h1
  rw [ht]
  apply List.ext_get
  · simp
  · intro n hn1 hn2
    have hnt : n < t.length := by simpa using hn1
    have hid := (h2 n hnt).1
    simp only [List.get_eq_getElem, List.getElem_map, List.getElem_range]
    exact hid.trans (congrArg toString (Nat.add_comm 1 n))

/-- Claim C6: no returned issue carries the fallback suggestion: a
statement whose text after the first sentence boundary is empty receives
the fallback from the part extractor, the fallback contains refactor, so
the policy filter rejects the statement and it never becomes an issue. -/
theorem claim_C6 :
    (∀ text, sentenceMatch (trimL (stripMarker2 text)) = none →
      (extractParts text).suggestion = fallbackSuggestion) ∧
    (∀ text pre post, sentenceMatch (trimL (stripMarker2 text)) = some (pre, post) →
      trimL post = [] → (extractParts text).suggestion = fallbackSuggestion) ∧
    (∀ t, isOverEngineered t fallbackSuggestion = true) ∧
    (∀ r x, x ∈ parseReviewResponse r → x.suggestion ≠ fallbackSuggestion) := by
  refine ⟨?_, ?_, isOverEngineered_fallback, ?_⟩
  · intro text hm
    rw [extractParts_none hm]
  · intro text pre post hm hpost
    rw [extractParts_some hm]
    simp [hpost]
  · intro r x hx hsug
    obtain ⟨t, h1, h2⟩ := processBuckets_spec r severityOrder [] 1
    have ht : parseReviewResponse r = t := by
      simpa [parseReviewResponse] using h1
    rw [ht] at hx
    obtain ⟨n, hn⟩ := List.mem_iff_get.mp hx
    have hpol := (h2 n.1 n.2).2
    rw [hn, hsug, isOverEngineered_fallback] at hpol
    exact Bool.noConfusion hpol

/-- Witness for claim C6: concrete statements receive the fallback
suggestion, the fallback is always flagged, and a concrete returned issue
does not carry the fallback. -/
theorem claim_C6_witness :
    (extractParts noBoundaryText).suggestion = fallbackSuggestion ∧
    (extractParts singleSentenceText).suggestion = fallbackSuggestion ∧
    isOverEngineered (S "Null check") fallbackSuggestion = true ∧
    capIssue1 ∈ parseReviewResponse capFeedback ∧
    capIssue1.suggestion ≠ fallbackSuggestion :=
  ⟨claim_C6.1 noBoundaryText (by decide),
   claim_C6.2.1 singleSentenceText (S "Single sentence statement.") [] (by decide) (by decide),
   claim_C6.2.2.1 (S "Null check"),
   by decide,
   claim_C6.2.2.2 capFeedback capIssue1 (by decide)⟩

/-- Claim C7 counterexample: a trimmed statement that begins with a double
quote and ends with a single quote, and satisfies none of the other noise
rules, is still classified as noise by the quote rule. -/
theorem claim_C7_counterexample :
    firstIsQuote (trimL mixedQuoteStmt) = true ∧
    lastIsQuote (trimL mixedQuoteStmt) = true ∧
    (trimL mixedQuoteStmt).head? = some quoteD ∧
    (trimL mixedQuoteStmt).getLast? = some apos ∧
    quoteD ≠ apos ∧
    noiseHeading (trimL mixedQuoteStmt) = false ∧
    noiseFence (trimL mixedQuoteStmt) = false ∧
    noiseBoilerplate (trimL mixedQuoteStmt) = false ∧
    noiseNarrative (trimL mixedQuoteStmt) = false ∧
    noiseCodeKeyword (trimL mixedQuoteStmt) = false ∧
    noiseShort (trimL mixedQuoteStmt) = false ∧
    noiseAdvisory (trimL mixedQuoteStmt) = false ∧
    noisePlatitude (trimL mixedQuoteStmt) = false ∧
    noiseCommentAdvice (trimL mixedQuoteStmt) = false ∧
    noiseNamingAdvice (trimL mixedQuoteStmt) = false ∧
    isNoiseItem mixedQuoteStmt = true := by
  decide

/-- Claim C7 (amended): the quote-wrapping noise rule fires whenever the
trimmed statement begins with any quote character and ends with any quote
character, matching or not; every such statement is classified as noise. -/
theorem claim_C7_amended (text : List Char)
    (h1 : firstIsQuote (trimL text) = true) (h2 : lastIsQuote (trimL text) = true) :
    isNoiseItem text = true := by
  simp [isNoiseItem, noiseQuoted, h1, h2]

/-- Witness for the amended claim C7: a statement starting with a single
quote and ending with a double quote is noise. -/
theorem claim_C7_witness :
    firstIsQuote (trimL mixedQuoteStmt2) = true ∧
    lastIsQuote (trimL mixedQuoteStmt2) = true ∧
    isNoiseItem mixedQuoteStmt2 = true :=
  ⟨by decide, by decide, claim_C7_amended mixedQuoteStmt2 (by decide) (by decide)⟩

/-- Claim C8: the extracted title is at most 80 characters; when the first
sentence exceeds 80 characters after trimming, the title is its first 77
characters followed by an ellipsis; when no sentence boundary exists, the
title is the first 80 characters of the cleaned text and the suggestion
falls back (the extracted rest is empty). -/
theorem claim_C8 (text : List Char) :
    (extractParts text).title.length ≤ 80 ∧
    (∀ pre post, sentenceMatch (trimL (stripMarker2 text)) = some (pre, post) →
      80 < (trimL pre).length →
      (extractParts text).title = (trimL pre).take 77 ++ S "...") ∧
    ((∀ c ∈ trimL (stripMarker2 text), isBoundaryChar c = false) →
      (extractParts text).title = (trimL (stripMarker2 text)).take 80 ∧
      (extractParts text).suggestion = fallbackSuggestion) := by
  refine ⟨?_, ?_, ?_⟩
  · cases hm : sentenceMatch (trimL (stripMarker2 text)) with
    | none =>
      rw [extractParts_none hm]
      exact List.length_take_le 80 _
    | some pp =>
      obtain ⟨pre, post⟩ := pp
      rw [extractParts_some hm]
      by_cases hlen : 80 < (trimL pre).length
      · rw [if_pos hlen]
        have h77 : ((trimL pre).take 77).length = 77 := by
          rw [List.length_take]
          exact min_eq_left (by omega)
        have h3 : (S "...").length = 3 := rfl
        rw [List.length_append, h77, h3]
      · rw [if_neg hlen]
        show (trimL pre).length ≤ 80
        omega
  · intro pre post hm hlen
    rw [extractParts_some hm, if_pos hlen]
  · intro h
    have hm := sentenceMatch_eq_none _ h
    rw [extractParts_none hm]
    exact ⟨rfl, rfl⟩

/-- Witness for claim C8: the 101-character first sentence is truncated to
77 characters plus an ellipsis, and a text without boundary characters
keeps its first 80 characters as title. -/
theorem claim_C8_witness :
    sentenceMatch (trimL (stripMarker2 longSentence)) = some (longPre, longPost) ∧
    80 < (trimL longPre).length ∧
    (extractParts longSentence).title = (trimL longPre).take 77 ++ S "..." ∧
    (extractParts noBoundaryText).title = (trimL (stripMarker2 noBoundaryText)).take 80 :=
  ⟨by decide, by decide,
   (claim_C8 longSentence).2.1 longPre longPost (by decide) (by decide),
   ((claim_C8 noBoundaryText).2.2 (by decide)).1⟩

/-- Claim C9: the duplicate check on a single existing issue is symmetric
in the two titles, because normalized equality and containment in both
directions are tested. -/
theorem claim_C9 (e f : ReviewIssue) :
    isDuplicate [e] f.title = isDuplicate [f] e.title := by
  simp only [isDuplicate, List.any_cons, List.any_nil, Bool.or_false]
  have hd : (decide (normalizeTitle e.title = normalizeTitle f.title) : Bool) =
      decide (normalizeTitle f.title = normalizeTitle e.title) := by
    simp [eq_comm]
  rw [hd]
  cases h1 : hasSubstr (normalizeTitle e.title) (normalizeTitle f.title) <;>
    cases h2 : hasSubstr (normalizeTitle f.title) (normalizeTitle e.title) <;>
    simp [h1, h2]

/-- Claim C10: the fence stripper removes a leading python fence and a
trailing fence from a fenced block, and leaves already-unfenced text
unchanged. -/
theorem claim_C10 :
    stripCodeFences (S "```python\nprint(1)\n```") = S "print(1)" ∧
    stripCodeFences (S "print(1)") = S "print(1)" := by
  exact ⟨by decide, by decide⟩
